import Mathlib

/-!
# Verification of the `channels-console` statistics core

A shallow embedding, in Lean 4, of the statistics core of the
`tokio-channels-console` crate (`src/lib.rs`): channel identity and label
resolution, byte formatting, the collator's event-application semantics over
the registry, the snapshot/serialization path, and the metrics HTTP request
handler.  Strings are modelled as `List Char` (UTF-8 byte order on Rust `str`
coincides with code-point lexicographic order, so character-list order is a
faithful model of `str::cmp`).  Machine integers (`u64`, `usize`) are
modelled as `Nat`, with an explicit `% 2 ^ 64` wherever the Rust code
performs `u64` arithmetic that can wrap.
-/

namespace ChannelsConsole

/-- The modulus `2 ^ 64` of Rust `u64` arithmetic. -/
def U64 : Nat := 2 ^ 64

/-! ## Channel identity and label formatting (`resolve_label`, `extract_filename`) -/

/-- Model of Rust `str::split('/')` (and `split(':')`): split a character list
at every occurrence of `c`.  Splitting the empty string yields one empty
segment, exactly as in Rust. -/
def splitOnChar (c : Char) : List Char → List (List Char)
  | [] => [[]]
  | ch :: rest =>
    match splitOnChar c rest with
    | [] => [[]]
    | a :: as => if ch = c then [] :: a :: as else (ch :: a) :: as

/-- Model of Rust `str::rfind(c)` followed by `split_at(pos)` and dropping the
separator: `rsplitLast c s = some (p, l)` when `s = p ++ c :: l` with `c ∉ l`
(split at the last occurrence of `c`), and `none` when `c` does not occur. -/
def rsplitLast (c : Char) : List Char → Option (List Char × List Char)
  | [] => none
  | ch :: rest =>
    match rsplitLast c rest with
    | some (p, l) => some (ch :: p, l)
    | none => if ch = c then some ([], rest) else none

/-- Embedding of `extract_filename` (src/lib.rs:366-377): split the path on
`'/'`; when there are at least two components, keep the last two joined by
`'/'`; else return the path unchanged.  The source indexes
`components[len-2]` and `components[len-1]`; here the last two components are
read off the reversed component list, which is the same pair. -/
def extract_filename (path : List Char) : List Char :=
  match (splitOnChar '/' path).reverse with
  | b :: a :: _ => a ++ '/' :: b
  | _ => path

/-- Embedding of `resolve_label` (src/lib.rs:353-364): a provided label is
returned verbatim; otherwise the id is split at the last `':'` into `path`
and `line` and the result is `extract_filename path ++ ":" ++ line`; if the
id has no `':'`, it is `extract_filename id`. -/
def resolve_label (id : List Char) (provided : Option (List Char)) : List Char :=
  match provided with
  | some l => l
  | none =>
    match rsplitLast ':' id with
    | some (path, line) => extract_filename path ++ ':' :: line
    | none => extract_filename id

/-! ## Byte formatting (`format_bytes`) -/

/-- Render a natural number in decimal, as Rust's integer `Display` does. -/
def natToStr (n : Nat) : List Char := Nat.toDigits 10 n

/-- The unit names of `format_bytes` (src/lib.rs:385). -/
def UNITS : List (List Char) := [['B'], ['K', 'B'], ['M', 'B'], ['G', 'B'], ['T', 'B']]

/-- The `while size >= 1024.0 && unit_idx < UNITS.len() - 1` loop of
`format_bytes` (src/lib.rs:389-392), tracking the exact value `n / den` as
the pair `(n, den)`: each division by `1024.0` is exact in `f64` (a pure
exponent decrement), so the loop guard `size >= 1024.0` is `1024 * den ≤ n`.
The guard `unit_idx < 4` bounds the iteration count by 4, so fuel 4 makes
the structural recursion equal to the source's `while` loop. -/
def fbLoop : Nat → Nat → Nat → Nat → Nat
  | 0, _, _, k => k
  | fuel + 1, n, den, k =>
    if 1024 * den ≤ n ∧ k < 4 then fbLoop fuel n (1024 * den) (k + 1) else k

/-- The unit index `unit_idx` chosen by `format_bytes` for `n` bytes. -/
def fbIdx (n : Nat) : Nat := fbLoop 4 n 1 0

/-- Correct rounding of `num / den` to the nearest integer, ties to even:
the rounding Rust's `{:.1}` float formatting applies to the exact value. -/
def roundHalfEven (num den : Nat) : Nat :=
  let q := num / den
  let r := num % den
  if 2 * r < den then q
  else if den < 2 * r then q + 1
  else if q % 2 = 0 then q else q + 1

/-- Embedding of `format_bytes` (src/lib.rs:380-399).  `0` maps to `"0 B"`;
otherwise the loop picks the unit index `k`; for `k = 0` the byte count is
printed with integer precision, else the exact scaled value `n / 1024 ^ k`
is printed with one fractional digit.  The `f64` computation of the source
is modelled by exact rational arithmetic: for `n < 2 ^ 53` the conversion
`bytes as f64` and every division by `1024.0` are exact, and `{:.1}`
correctly rounds the exact value half-to-even, so the model coincides with
the source there; the chosen unit index coincides for every `u64` input
because all unit boundaries (`1024 ^ k`, `k ≤ 4`) are below `2 ^ 53`. -/
def format_bytes (n : Nat) : List Char :=
  if n = 0 then '0' :: ' ' :: ['B']
  else
    let k := fbIdx n
    if k = 0 then natToStr n ++ ' ' :: ['B']
    else
      let d := roundHalfEven (10 * n) (1024 ^ k)
      natToStr (d / 10) ++ '.' :: natToStr (d % 10) ++ ' ' :: UNITS.get! k

/-! ## Data model (`ChannelType`, `ChannelState`, `ChannelStats`) -/

/-- Embedding of `ChannelType` (src/lib.rs:17-21). -/
inductive ChannelType where
  | bounded (size : Nat)
  | unbounded
  | oneshot
deriving DecidableEq, Repr

/-- Embedding of `ChannelState` (src/lib.rs:78-84); `Active` is the
`#[default]` variant. -/
inductive ChannelState where
  | active
  | closed
  | full
  | notified
deriving DecidableEq, Repr

/-- Embedding of the stored record `ChannelStats` (src/lib.rs:130-147).  The
derived quantities (`queued`, `total_bytes`, `queued_bytes`) are not fields:
as in the source they are computed on read. -/
structure ChannelStats where
  id : List Char
  label : Option (List Char)
  channel_type : ChannelType
  state : ChannelState
  sent_count : Nat
  received_count : Nat
  type_name : List Char
  type_size : Nat
deriving DecidableEq, Repr

/-- Embedding of `ChannelStats::queued` (src/lib.rs:150-152):
`saturating_sub` on `u64` is truncated subtraction, which is exactly `Nat`
subtraction. -/
def ChannelStats.queued (s : ChannelStats) : Nat :=
  s.sent_count - s.received_count

/-- Embedding of `ChannelStats::total_bytes` (src/lib.rs:155-157); the `u64`
multiplication wraps at `2 ^ 64`. -/
def ChannelStats.total_bytes (s : ChannelStats) : Nat :=
  s.sent_count * s.type_size % U64

/-- Embedding of `ChannelStats::queued_bytes` (src/lib.rs:160-162). -/
def ChannelStats.queued_bytes (s : ChannelStats) : Nat :=
  s.queued * s.type_size % U64

/-- Embedding of `ChannelStats::new` (src/lib.rs:212-229): fresh record with
zero counters and the default state `Active`. -/
def ChannelStats.new (id : List Char) (label : Option (List Char))
    (channel_type : ChannelType) (type_name : List Char) (type_size : Nat) :
    ChannelStats :=
  { id := id, label := label, channel_type := channel_type,
    state := ChannelState.active, sent_count := 0, received_count := 0,
    type_name := type_name, type_size := type_size }

/-- Embedding of `ChannelStats::update_state` (src/lib.rs:233-243): a
terminal state (`Closed` or `Notified`) is left unchanged; otherwise the
state becomes `Full` when `sent_count > received_count` and `Active`
otherwise. -/
def ChannelStats.update_state (s : ChannelStats) : ChannelStats :=
  if s.state = ChannelState.closed ∨ s.state = ChannelState.notified then s
  else if s.received_count < s.sent_count then { s with state := ChannelState.full }
  else { s with state := ChannelState.active }

/-- Embedding of the serializable record `SerializableChannelStats`
(src/lib.rs:167-190). -/
structure SerializableChannelStats where
  id : List Char
  label : List Char
  channel_type : ChannelType
  state : ChannelState
  sent_count : Nat
  received_count : Nat
  queued : Nat
  type_name : List Char
  type_size : Nat
  total_bytes : Nat
  queued_bytes : Nat
deriving DecidableEq, Repr

/-- Embedding of `impl From<&ChannelStats> for SerializableChannelStats`
(src/lib.rs:192-209): the derived fields are computed from the stored
counters on conversion. -/
def toSerializable (s : ChannelStats) : SerializableChannelStats :=
  { id := s.id, label := resolve_label s.id s.label,
    channel_type := s.channel_type, state := s.state,
    sent_count := s.sent_count, received_count := s.received_count,
    queued := s.queued, type_name := s.type_name, type_size := s.type_size,
    total_bytes := s.total_bytes, queued_bytes := s.queued_bytes }

/-! ## The registry and the collator (`init_stats_state` event loop)

The registry is `HashMap<&'static str, ChannelStats>`, modelled as an
association list of key/record pairs; `HashMap` key uniqueness corresponds
to `Nodup` of the key column where a statement needs it, and the list order
models the (arbitrary) iteration order of `values()`. -/

/-- The registry: association list modelling the `HashMap`. -/
abbrev Registry := List (List Char × ChannelStats)

/-- Model of `HashMap::get` / `get_mut` lookup: the record stored under key
`k`, if any. -/
def findRec (k : List Char) : Registry → Option ChannelStats
  | [] => none
  | p :: rest => if p.1 = k then some p.2 else findRec k rest

/-- Model of the `if let Some(r) = stats.get_mut(id) { ... }` update pattern
of the collator: rewrite the record stored under `k` in place, leaving the
registry unchanged when `k` is absent. -/
def hmModify (k : List Char) (f : ChannelStats → ChannelStats) : Registry → Registry
  | [] => []
  | p :: rest => (if p.1 = k then (p.1, f p.2) else p) :: hmModify k f rest

/-- Model of `HashMap::insert` (src/lib.rs:299): replace the value stored
under `k` when the key is present, add the pair otherwise. -/
def hmInsert (k : List Char) (v : ChannelStats) (m : Registry) : Registry :=
  if (findRec k m).isSome then hmModify k (fun _ => v) m else m ++ [(k, v)]

/-- Embedding of `StatsEvent` (src/lib.rs:248-268). -/
inductive StatsEvent where
  | created (id : List Char) (display_label : Option (List Char))
      (channel_type : ChannelType) (type_name : List Char) (type_size : Nat)
  | messageSent (id : List Char)
  | messageReceived (id : List Char)
  | closed (id : List Char)
  | notified (id : List Char)

/-- Embedding of the collator's `match event` body (src/lib.rs:291-332), the
single-event apply step performed under the write lock.  Counter increments
are `u64` additions, hence taken `% 2 ^ 64`. -/
def applyEvent (m : Registry) : StatsEvent → Registry
  | StatsEvent.created id lbl ct tn ts =>
      hmInsert id (ChannelStats.new id lbl ct tn ts) m
  | StatsEvent.messageSent id =>
      hmModify id
        (fun s => ChannelStats.update_state { s with sent_count := (s.sent_count + 1) % U64 }) m
  | StatsEvent.messageReceived id =>
      hmModify id
        (fun s => ChannelStats.update_state { s with received_count := (s.received_count + 1) % U64 }) m
  | StatsEvent.closed id =>
      hmModify id (fun s => { s with state := ChannelState.closed }) m
  | StatsEvent.notified id =>
      hmModify id (fun s => { s with state := ChannelState.notified }) m

/-! ## Snapshot and serialization order (`get_serializable_stats`) -/

/-- Strict lexicographic order on character lists: the model of Rust
`str::cmp` returning `Less` (UTF-8 byte order equals code-point order). -/
def strLtb : List Char → List Char → Bool
  | [], [] => false
  | [], _ :: _ => true
  | _ :: _, [] => false
  | a :: as, b :: bs => if a < b then true else if b < a then false else strLtb as bs

/-- The relation `a ≤ b` in the order of Rust `str::cmp`: `cmp` did not
return `Greater`. -/
def strLeb (a b : List Char) : Bool := !(strLtb b a)

/-- The comparison `|a, b| a.id.cmp(&b.id)` of `get_serializable_stats`
(src/lib.rs:492), as the `Prop`-valued relation used for sorting. -/
def serIdLe (a b : SerializableChannelStats) : Prop := strLeb a.id b.id = true

instance : DecidableRel serIdLe := fun a b => decEq (strLeb a.id b.id) true

/-- The strict part of `serIdLe`: `a` precedes `b` by id and the ids differ.
Antisymmetric, which is what pins the sorted snapshot down uniquely when the
ids are distinct. -/
def serIdLtStrict (a b : SerializableChannelStats) : Prop :=
  serIdLe a b ∧ a.id ≠ b.id

/-- Embedding of `get_serializable_stats` (src/lib.rs:486-494): convert every
record of the snapshot, then sort ascending by `id`.  Rust's `sort_by` is a
stable sort for the total order `a.id.cmp(&b.id)`, and a stable sort's
output is uniquely determined by the comparator and the input order, so the
stable `insertionSort` computes exactly the same list.  The input list order
models the arbitrary `values()` iteration order of the `HashMap`. -/
def get_serializable_stats (m : Registry) : List SerializableChannelStats :=
  List.insertionSort serIdLe (m.map (fun p => toSerializable p.2))

/-! ## Metrics HTTP server (`start_metrics_server`) -/

/-- An incoming HTTP request, as the handler can observe it through
`tiny_http`: a method and a URL path.  The handler of
`start_metrics_server` reads only `request.url()`. -/
structure HttpRequest where
  method : List Char
  url : List Char
deriving DecidableEq

/-- A response: status code, whether the `Content-Type: application/json`
header was attached, and the body.  `tiny_http`'s `Response::from_string`
defaults to status 200. -/
structure HttpResponse where
  status : Nat
  contentTypeJson : Bool
  body : List Char
deriving DecidableEq

/-- Embedding of the per-request body of the `for request in
server.incoming_requests()` loop (src/lib.rs:506-531).  `ser` is the outcome
of `serde_json::to_string(&get_serializable_stats())` at the time of the
request: `Except.ok json` on success, `Except.error e` with the error text
on failure. -/
def handle_request (req : HttpRequest) (ser : Except (List Char) (List Char)) :
    HttpResponse :=
  if req.url = "/metrics".toList then
    match ser with
    | Except.ok json =>
        { status := 200, contentTypeJson := true, body := json }
    | Except.error e =>
        { status := 500, contentTypeJson := false,
          body := "Internal server error: ".toList ++ e }
  else
    { status := 404, contentTypeJson := false, body := "Not found".toList }

/-- The request loop: every incoming request is answered by
`handle_request`; no outcome (in particular no serialization failure)
terminates the loop. -/
def serve_requests (reqs : List (HttpRequest × Except (List Char) (List Char))) :
    List HttpResponse :=
  reqs.map (fun p => handle_request p.1 p.2)

/-! ## Registry lemmas -/

lemma findRec_hmModify_self (k : List Char) (f : ChannelStats → ChannelStats) :
    ∀ m : Registry, findRec k (hmModify k f m) = (findRec k m).map f := by
  intro m
  induction m with
  | nil => rfl
  | cons p rest ih =>
    by_cases h : p.1 = k
    · simp [hmModify, findRec, h]
    · simp [hmModify, findRec, h, ih]

lemma findRec_hmModify_ne (k k' : List Char) (f : ChannelStats → ChannelStats)
    (h : k' ≠ k) : ∀ m : Registry, findRec k' (hmModify k f m) = findRec k' m := by
  intro m
  induction m with
  | nil => rfl
  | cons p rest ih =>
    by_cases hp : p.1 = k
    · simp [hmModify, findRec, hp, ih, Ne.symm h]
    · simp [hmModify, findRec, hp, ih]

lemma hmModify_eq_self_of_none (k : List Char) (f : ChannelStats → ChannelStats) :
    ∀ m : Registry, findRec k m = none → hmModify k f m = m := by
  intro m
  induction m with
  | nil => intro _; rfl
  | cons p rest ih =>
    intro hnone
    by_cases h : p.1 = k
    · simp [findRec, h] at hnone
    · simp [findRec, h] at hnone
      simp [hmModify, h, ih hnone]

lemma findRec_append_self (k : List Char) (v : ChannelStats) :
    ∀ m : Registry, findRec k m = none → findRec k (m ++ [(k, v)]) = some v := by
  intro m
  induction m with
  | nil => intro _; simp [findRec]
  | cons p rest ih =>
    intro hnone
    by_cases h : p.1 = k
    · simp [findRec, h] at hnone
    · simp [findRec, h] at hnone ⊢
      exact ih hnone

lemma findRec_append_ne (k k' : List Char) (v : ChannelStats) (h : k' ≠ k) :
    ∀ m : Registry, findRec k' (m ++ [(k, v)]) = findRec k' m := by
  intro m
  induction m with
  | nil => simp [findRec, Ne.symm h]
  | cons p rest ih =>
    by_cases hp : p.1 = k'
    · simp [findRec, hp]
    · simp [findRec, hp, ih]

lemma findRec_hmInsert_self (k : List Char) (v : ChannelStats) (m : Registry) :
    findRec k (hmInsert k v m) = some v := by
  unfold hmInsert
  by_cases h : (findRec k m).isSome
  · obtain ⟨a, ha⟩ := Option.isSome_iff_exists.mp h
    simp [h, findRec_hmModify_self, ha]
  · simp only [h, if_false, Bool.false_eq_true]
    exact findRec_append_self k v m (Option.not_isSome_iff_eq_none.mp h)

lemma findRec_hmInsert_ne (k k' : List Char) (v : ChannelStats) (h : k' ≠ k)
    (m : Registry) : findRec k' (hmInsert k v m) = findRec k' m := by
  unfold hmInsert
  by_cases hs : (findRec k m).isSome
  · simp [hs, findRec_hmModify_ne k k' _ h]
  · simp [hs, findRec_append_ne k k' v h]

lemma findRec_applyEvent_isSome (m : Registry) (e : StatsEvent) (k : List Char)
    (h : (findRec k m).isSome) : (findRec k (applyEvent m e)).isSome := by
  cases e with
  | created id lbl ct tn ts =>
    by_cases hk : k = id
    · subst hk; simp [applyEvent, findRec_hmInsert_self]
    · simpa [applyEvent, findRec_hmInsert_ne id k _ hk] using h
  | messageSent id =>
    by_cases hk : k = id
    · subst hk; simpa [applyEvent, findRec_hmModify_self] using h
    · simpa [applyEvent, findRec_hmModify_ne id k _ hk] using h
  | messageReceived id =>
    by_cases hk : k = id
    · subst hk; simpa [applyEvent, findRec_hmModify_self] using h
    · simpa [applyEvent, findRec_hmModify_ne id k _ hk] using h
  | closed id =>
    by_cases hk : k = id
    · subst hk; simpa [applyEvent, findRec_hmModify_self] using h
    · simpa [applyEvent, findRec_hmModify_ne id k _ hk] using h
  | notified id =>
    by_cases hk : k = id
    · subst hk; simpa [applyEvent, findRec_hmModify_self] using h
    · simpa [applyEvent, findRec_hmModify_ne id k _ hk] using h

/-! ## Claim C10: events for an unknown id are silent no-ops -/

/-- C10.  Applying a `MessageSent`, `MessageReceived`, `Closed` or `Notified`
event whose id has no record in the registry leaves the registry map exactly
as it was: no record is created and the collator does not fail. -/
theorem unknown_id_events_are_noops :
    ∀ (m : Registry) (id : List Char), findRec id m = none →
      applyEvent m (StatsEvent.messageSent id) = m ∧
      applyEvent m (StatsEvent.messageReceived id) = m ∧
      applyEvent m (StatsEvent.closed id) = m ∧
      applyEvent m (StatsEvent.notified id) = m := by
  intro m id h
  exact ⟨hmModify_eq_self_of_none id _ m h, hmModify_eq_self_of_none id _ m h,
    hmModify_eq_self_of_none id _ m h, hmModify_eq_self_of_none id _ m h⟩

/-- Witness for C10: a registry holding only the key `"a"` is untouched by
the four counter/state events for the absent key `"b"`. -/
theorem unknown_id_events_are_noops_witness :
    applyEvent [(("a").toList, ChannelStats.new (("a").toList) none ChannelType.unbounded (("i64").toList) 8)]
        (StatsEvent.closed (("b").toList)) =
      [(("a").toList, ChannelStats.new (("a").toList) none ChannelType.unbounded (("i64").toList) 8)] :=
  (unknown_id_events_are_noops
    [(("a").toList, ChannelStats.new (("a").toList) none ChannelType.unbounded (("i64").toList) 8)]
    (("b").toList) (by decide)).2.2.1

/-! ## Claim C1: `Created` on an existing id -/

/-- Counterexample to C1 as stated: the collator's `Created` arm calls
`HashMap::insert`, which replaces an existing record rather than leaving it
unchanged.  Applying `Created` to a registry whose record for `"a"` has
`sent_count = 5` yields a record with `sent_count = 0`. -/
theorem created_existing_id_counterexample :
    (findRec (("a").toList)
        (applyEvent
          [(("a").toList,
            { id := ("a").toList, label := none,
              channel_type := ChannelType.unbounded, state := ChannelState.full,
              sent_count := 5, received_count := 2,
              type_name := ("i64").toList, type_size := 8 })]
          (StatsEvent.created (("a").toList) none ChannelType.unbounded (("i64").toList) 8))).map
        ChannelStats.sent_count = some 0 ∧ (5 : Nat) ≠ 0 := by
  constructor
  · rfl
  · decide

/-- C1 (amended).  Applying `Created` always stores a fresh record with zero
counters and state `Active` under the event's id — replacing any existing
record rather than leaving it unchanged; records under other ids are
untouched, and no event ever removes a record from the registry. -/
theorem created_stores_fresh_record :
    ∀ (m : Registry) (id : List Char) (lbl : Option (List Char))
      (ct : ChannelType) (tn : List Char) (ts : Nat),
      findRec id (applyEvent m (StatsEvent.created id lbl ct tn ts)) =
        some (ChannelStats.new id lbl ct tn ts) ∧
      (ChannelStats.new id lbl ct tn ts).sent_count = 0 ∧
      (ChannelStats.new id lbl ct tn ts).received_count = 0 ∧
      (ChannelStats.new id lbl ct tn ts).state = ChannelState.active ∧
      (∀ k, k ≠ id →
        findRec k (applyEvent m (StatsEvent.created id lbl ct tn ts)) = findRec k m) ∧
      (∀ (e : StatsEvent) (k : List Char),
        (findRec k m).isSome → (findRec k (applyEvent m e)).isSome) := by
  intro m id lbl ct tn ts
  refine ⟨findRec_hmInsert_self id _ m, rfl, rfl, rfl, ?_, ?_⟩
  · intro k hk
    exact findRec_hmInsert_ne id k _ hk m
  · intro e k hk
    exact findRec_applyEvent_isSome m e k hk

/-- Witness for C1 (amended): `Created` on the occupied key `"a"` resets the
record, leaves the other key `"b"` alone, and removes nothing. -/
theorem created_stores_fresh_record_witness :
    findRec (("a").toList)
        (applyEvent
          [(("a").toList,
            { id := ("a").toList, label := none,
              channel_type := ChannelType.unbounded, state := ChannelState.full,
              sent_count := 5, received_count := 2,
              type_name := ("i64").toList, type_size := 8 }),
           (("b").toList, ChannelStats.new (("b").toList) none ChannelType.oneshot (("u8").toList) 1)]
          (StatsEvent.created (("a").toList) none ChannelType.unbounded (("i64").toList) 8)) =
      some (ChannelStats.new (("a").toList) none ChannelType.unbounded (("i64").toList) 8) ∧
    findRec (("b").toList)
        (applyEvent
          [(("a").toList,
            { id := ("a").toList, label := none,
              channel_type := ChannelType.unbounded, state := ChannelState.full,
              sent_count := 5, received_count := 2,
              type_name := ("i64").toList, type_size := 8 }),
           (("b").toList, ChannelStats.new (("b").toList) none ChannelType.oneshot (("u8").toList) 1)]
          (StatsEvent.created (("a").toList) none ChannelType.unbounded (("i64").toList) 8)) =
      findRec (("b").toList)
        [(("a").toList,
          { id := ("a").toList, label := none,
            channel_type := ChannelType.unbounded, state := ChannelState.full,
            sent_count := 5, received_count := 2,
            type_name := ("i64").toList, type_size := 8 }),
         (("b").toList, ChannelStats.new (("b").toList) none ChannelType.oneshot (("u8").toList) 1)] := by
  refine ⟨(created_stores_fresh_record _ _ none ChannelType.unbounded _ 8).1, ?_⟩
  exact (created_stores_fresh_record _ (("a").toList) none ChannelType.unbounded (("i64").toList) 8).2.2.2.2.1
    (("b").toList) (by decide)

/-! ## Claim C2: terminality of `Notified` -/

/-- Counterexample to C2 as stated: the collator's `Closed` arm
(src/lib.rs:322-326) assigns `state = Closed` unconditionally, with no
check for `Notified`.  A record in state `Notified` moves to `Closed`. -/
theorem closed_overrides_notified_counterexample :
    (findRec (("a").toList)
        (applyEvent
          [(("a").toList,
            { id := ("a").toList, label := none,
              channel_type := ChannelType.oneshot, state := ChannelState.notified,
              sent_count := 1, received_count := 1,
              type_name := ("u8").toList, type_size := 1 })]
          (StatsEvent.closed (("a").toList)))).map ChannelStats.state =
      some ChannelState.closed ∧
    ChannelState.closed ≠ ChannelState.notified := by
  constructor
  · rfl
  · decide

/-- C2 (amended).  A record in state `Notified` keeps that state under
`MessageSent`, `MessageReceived` and `Notified` events (the counter events
re-derive the state through `update_state`, which leaves terminal states
alone) — but a `Closed` event sets the state to `Closed` even on a
`Notified` record: `Notified` is not terminal with respect to `Closed`. -/
theorem notified_persistence_and_closed_override :
    ∀ (m : Registry) (id : List Char) (s : ChannelStats),
      findRec id m = some s → s.state = ChannelState.notified →
      (findRec id (applyEvent m (StatsEvent.messageSent id))).map ChannelStats.state =
        some ChannelState.notified ∧
      (findRec id (applyEvent m (StatsEvent.messageReceived id))).map ChannelStats.state =
        some ChannelState.notified ∧
      (findRec id (applyEvent m (StatsEvent.notified id))).map ChannelStats.state =
        some ChannelState.notified ∧
      (findRec id (applyEvent m (StatsEvent.closed id))).map ChannelStats.state =
        some ChannelState.closed := by
  intro m id s hfind hstate
  have hsent : (findRec id (applyEvent m (StatsEvent.messageSent id))) =
      some (ChannelStats.update_state { s with sent_count := (s.sent_count + 1) % U64 }) := by
    simp [applyEvent, findRec_hmModify_self, hfind]
  have hrecv : (findRec id (applyEvent m (StatsEvent.messageReceived id))) =
      some (ChannelStats.update_state { s with received_count := (s.received_count + 1) % U64 }) := by
    simp [applyEvent, findRec_hmModify_self, hfind]
  refine ⟨?_, ?_, ?_, ?_⟩
  · rw [hsent]
    simp [ChannelStats.update_state, hstate]
  · rw [hrecv]
    simp [ChannelStats.update_state, hstate]
  · simp [applyEvent, findRec_hmModify_self, hfind]
  · simp [applyEvent, findRec_hmModify_self, hfind]

/-- Witness for C2 (amended), at a concrete one-record registry in state
`Notified`. -/
theorem notified_persistence_witness :
    (findRec (("a").toList)
        (applyEvent
          [(("a").toList,
            { id := ("a").toList, label := none,
              channel_type := ChannelType.oneshot, state := ChannelState.notified,
              sent_count := 1, received_count := 1,
              type_name := ("u8").toList, type_size := 1 })]
          (StatsEvent.messageSent (("a").toList)))).map ChannelStats.state =
      some ChannelState.notified :=
  (notified_persistence_and_closed_override _ (("a").toList)
    { id := ("a").toList, label := none,
      channel_type := ChannelType.oneshot, state := ChannelState.notified,
      sent_count := 1, received_count := 1,
      type_name := ("u8").toList, type_size := 1 } (by decide) (by decide)).1

/-! ## Claim C6: counter events increment and re-derive state -/

/-- C6.  For an existing record, `MessageSent` (resp. `MessageReceived`)
increments `sent_count` (resp. `received_count`) by exactly one (the `u64`
addition does not wrap below `2 ^ 64`) and then re-derives the state: a
terminal state (`Closed` or `Notified`) is kept, otherwise the state becomes
`Full` when the new `sent_count` exceeds `received_count` and `Active`
otherwise; every other field is unchanged, as is every other record. -/
theorem message_events_increment_and_rederive :
    ∀ (m : Registry) (id : List Char) (s : ChannelStats),
      findRec id m = some s →
      (s.sent_count + 1 < U64 →
        ∃ s', findRec id (applyEvent m (StatsEvent.messageSent id)) = some s' ∧
          s'.sent_count = s.sent_count + 1 ∧
          s'.received_count = s.received_count ∧
          s'.id = s.id ∧ s'.label = s.label ∧
          s'.channel_type = s.channel_type ∧
          s'.type_name = s.type_name ∧ s'.type_size = s.type_size ∧
          s'.state = (if s.state = ChannelState.closed ∨ s.state = ChannelState.notified
            then s.state
            else if s.received_count < s.sent_count + 1 then ChannelState.full
            else ChannelState.active)) ∧
      (s.received_count + 1 < U64 →
        ∃ s', findRec id (applyEvent m (StatsEvent.messageReceived id)) = some s' ∧
          s'.received_count = s.received_count + 1 ∧
          s'.sent_count = s.sent_count ∧
          s'.id = s.id ∧ s'.label = s.label ∧
          s'.channel_type = s.channel_type ∧
          s'.type_name = s.type_name ∧ s'.type_size = s.type_size ∧
          s'.state = (if s.state = ChannelState.closed ∨ s.state = ChannelState.notified
            then s.state
            else if s.received_count + 1 < s.sent_count then ChannelState.full
            else ChannelState.active)) ∧
      (∀ k, k ≠ id →
        findRec k (applyEvent m (StatsEvent.messageSent id)) = findRec k m ∧
        findRec k (applyEvent m (StatsEvent.messageReceived id)) = findRec k m) := by
  intro m id s hfind
  refine ⟨?_, ?_, ?_⟩
  · intro hlt
    refine ⟨ChannelStats.update_state { s with sent_count := (s.sent_count + 1) % U64 }, ?_, ?_⟩
    · simp [applyEvent, findRec_hmModify_self, hfind]
    · have hmod : (s.sent_count + 1) % U64 = s.sent_count + 1 := Nat.mod_eq_of_lt hlt
      unfold ChannelStats.update_state
      by_cases hterm : s.state = ChannelState.closed ∨ s.state = ChannelState.notified
      · simp [hterm, hmod]
      · by_cases hfull : s.received_count < s.sent_count + 1
        · simp [hterm, hmod, hfull]
        · simp [hterm, hmod, hfull]
  · intro hlt
    refine ⟨ChannelStats.update_state { s with received_count := (s.received_count + 1) % U64 }, ?_, ?_⟩
    · simp [applyEvent, findRec_hmModify_self, hfind]
    · have hmod : (s.received_count + 1) % U64 = s.received_count + 1 := Nat.mod_eq_of_lt hlt
      unfold ChannelStats.update_state
      by_cases hterm : s.state = ChannelState.closed ∨ s.state = ChannelState.notified
      · simp [hterm, hmod]
      · by_cases hfull : s.received_count + 1 < s.sent_count
        · simp [hterm, hmod, hfull]
        · simp [hterm, hmod, hfull]
  · intro k hk
    exact ⟨findRec_hmModify_ne id k _ hk m, findRec_hmModify_ne id k _ hk m⟩

/-- Witness for C6: a record with `sent_count = 3`, `received_count = 1` in
state `Active` moves to `sent_count = 4` and state `Full` on `MessageSent`. -/
theorem message_events_increment_witness :
    ∃ s', findRec (("a").toList)
        (applyEvent
          [(("a").toList,
            { id := ("a").toList, label := none,
              channel_type := ChannelType.bounded 10, state := ChannelState.active,
              sent_count := 3, received_count := 1,
              type_name := ("i64").toList, type_size := 8 })]
          (StatsEvent.messageSent (("a").toList))) = some s' ∧
      s'.sent_count = 4 ∧ s'.state = ChannelState.full := by
  obtain ⟨hsent, _, _⟩ := message_events_increment_and_rederive
    [(("a").toList,
      { id := ("a").toList, label := none,
        channel_type := ChannelType.bounded 10, state := ChannelState.active,
        sent_count := 3, received_count := 1,
        type_name := ("i64").toList, type_size := 8 })]
    (("a").toList)
    { id := ("a").toList, label := none,
      channel_type := ChannelType.bounded 10, state := ChannelState.active,
      sent_count := 3, received_count := 1,
      type_name := ("i64").toList, type_size := 8 } (by decide)
  obtain ⟨s', hs, hcount, _, _, _, _, _, _, hstate⟩ := hsent (by decide)
  exact ⟨s', hs, hcount, by rw [hstate]; decide⟩

/-! ## Claim C7: derived fields -/

/-- C7.  The serializable view computes the derived fields on read from the
stored counters: `queued` is the saturating difference of the counters,
`total_bytes` is `sent_count * type_size` and `queued_bytes` is
`queued * type_size` (exactly, whenever the `u64` products do not wrap);
none of the three is stored in `ChannelStats`, whose only numeric fields
(`sent_count`, `received_count`, `type_size`) are carried over verbatim. -/
theorem derived_fields_computed_on_read :
    ∀ s : ChannelStats,
      (toSerializable s).queued = s.sent_count - s.received_count ∧
      (s.sent_count * s.type_size < U64 →
        (toSerializable s).total_bytes = s.sent_count * s.type_size) ∧
      ((s.sent_count - s.received_count) * s.type_size < U64 →
        (toSerializable s).queued_bytes = (s.sent_count - s.received_count) * s.type_size) ∧
      (toSerializable s).sent_count = s.sent_count ∧
      (toSerializable s).received_count = s.received_count ∧
      (toSerializable s).type_size = s.type_size ∧
      (toSerializable s).queued =
        (toSerializable s).sent_count - (toSerializable s).received_count := by
  intro s
  refine ⟨rfl, ?_, ?_, rfl, rfl, rfl, rfl⟩
  · intro hlt
    simpa [toSerializable, ChannelStats.total_bytes] using Nat.mod_eq_of_lt hlt
  · intro hlt
    simpa [toSerializable, ChannelStats.queued_bytes, ChannelStats.queued]
      using Nat.mod_eq_of_lt hlt

/-- Witness for C7 at a concrete record: 7 sent, 2 received, 8-byte payload
gives `queued = 5`, `total_bytes = 56`, `queued_bytes = 40`. -/
theorem derived_fields_computed_on_read_witness :
    (toSerializable
        { id := ("a").toList, label := none,
          channel_type := ChannelType.unbounded, state := ChannelState.full,
          sent_count := 7, received_count := 2,
          type_name := ("i64").toList, type_size := 8 }).queued = 5 ∧
    (toSerializable
        { id := ("a").toList, label := none,
          channel_type := ChannelType.unbounded, state := ChannelState.full,
          sent_count := 7, received_count := 2,
          type_name := ("i64").toList, type_size := 8 }).total_bytes = 56 ∧
    (toSerializable
        { id := ("a").toList, label := none,
          channel_type := ChannelType.unbounded, state := ChannelState.full,
          sent_count := 7, received_count := 2,
          type_name := ("i64").toList, type_size := 8 }).queued_bytes = 40 := by
  obtain ⟨hq, ht, hqb, _⟩ := derived_fields_computed_on_read
    { id := ("a").toList, label := none,
      channel_type := ChannelType.unbounded, state := ChannelState.full,
      sent_count := 7, received_count := 2,
      type_name := ("i64").toList, type_size := 8 }
  exact ⟨hq, ht (by decide), hqb (by decide)⟩

/-! ## Claim C8: byte formatting -/

lemma fbLoop_spec :
    ∀ (fuel k n : Nat), k + fuel = 4 → 1024 ^ k ≤ n →
      k ≤ fbLoop fuel n (1024 ^ k) k ∧ fbLoop fuel n (1024 ^ k) k ≤ 4 ∧
      1024 ^ fbLoop fuel n (1024 ^ k) k ≤ n ∧
      (fbLoop fuel n (1024 ^ k) k < 4 → n < 1024 ^ (fbLoop fuel n (1024 ^ k) k + 1)) := by
  intro fuel
  induction fuel with
  | zero =>
    intro k n hk hle
    have h4 : k = 4 := by omega
    subst h4
    exact ⟨le_refl _, le_refl _, hle, fun h => absurd h (lt_irrefl _)⟩
  | succ f ih =>
    intro k n hk hle
    by_cases hcond : 1024 * 1024 ^ k ≤ n ∧ k < 4
    · have hpow : 1024 * 1024 ^ k = 1024 ^ (k + 1) := (pow_succ' 1024 k).symm
      have step : fbLoop (f + 1) n (1024 ^ k) k = fbLoop f n (1024 ^ (k + 1)) (k + 1) := by
        rw [fbLoop, if_pos hcond, hpow]
      rw [step]
      have hle' : 1024 ^ (k + 1) ≤ n := by rw [← hpow]; exact hcond.1
      obtain ⟨h1, h2, h3, h4⟩ := ih (k + 1) n (by omega) hle'
      exact ⟨le_trans (Nat.le_succ k) h1, h2, h3, h4⟩
    · have step : fbLoop (f + 1) n (1024 ^ k) k = k := by
        rw [fbLoop, if_neg hcond]
      rw [step]
      have hk4 : k < 4 := by omega
      refine ⟨le_refl _, by omega, hle, fun _ => ?_⟩
      have : ¬ 1024 * 1024 ^ k ≤ n := fun hc => hcond ⟨hc, hk4⟩
      have := Nat.lt_of_not_le this
      calc n < 1024 * 1024 ^ k := this
        _ = 1024 ^ (k + 1) := (pow_succ' 1024 k).symm

lemma fbIdx_spec (n : Nat) (hn : 0 < n) :
    fbIdx n ≤ 4 ∧ 1024 ^ fbIdx n ≤ n ∧ (fbIdx n < 4 → n < 1024 ^ (fbIdx n + 1)) := by
  have h := fbLoop_spec 4 0 n rfl (by simpa using hn)
  have e : fbLoop 4 n (1024 ^ 0) 0 = fbIdx n := by
    simp [fbIdx, pow_zero]
  rw [e] at h
  exact ⟨h.2.1, h.2.2.1, h.2.2.2⟩

lemma natToStr_single_digit (d : Nat) (h : d < 10) : natToStr d = [Nat.digitChar d] := by
  interval_cases d <;> rfl

/-- C8.  For every positive `n`, `format_bytes` scales by 1024 per step and
chooses the largest unit index `k ≤ 4` (`B`, `KB`, `MB`, `GB`, `TB`) with
`1024 ^ k ≤ n` — i.e. the scaled value is still `≥ 1`, and for `k < 4` one
more step would drop below 1; the `B` unit prints the byte count with
integer precision and every other unit prints one fractional digit.
`format_bytes 0 = "0 B"`, and the `1024`-boundary values agree with the
spec: `1023 ↦ "1023 B"`, `1024 ↦ "1.0 KB"`, `1536 ↦ "1.5 KB"`. -/
theorem format_bytes_spec :
    (∀ n : Nat, 0 < n →
      fbIdx n ≤ 4 ∧ 1024 ^ fbIdx n ≤ n ∧
      (fbIdx n < 4 → n < 1024 ^ (fbIdx n + 1)) ∧
      (fbIdx n = 0 → format_bytes n = natToStr n ++ ' ' :: ['B']) ∧
      (0 < fbIdx n → ∃ q r, r < 10 ∧
        format_bytes n =
          natToStr q ++ '.' :: Nat.digitChar r :: ' ' :: UNITS.get! (fbIdx n))) ∧
    format_bytes 0 = ("0 B").toList ∧
    format_bytes 1023 = ("1023 B").toList ∧
    format_bytes 1024 = ("1.0 KB").toList ∧
    format_bytes 1536 = ("1.5 KB").toList := by
  refine ⟨?_, by decide, by decide, by decide, by decide⟩
  intro n hn
  obtain ⟨h4, hlow, hhigh⟩ := fbIdx_spec n hn
  refine ⟨h4, hlow, hhigh, ?_, ?_⟩
  · intro h0
    simp [format_bytes, Nat.pos_iff_ne_zero.mp hn, h0]
  · intro hpos
    refine ⟨roundHalfEven (10 * n) (1024 ^ fbIdx n) / 10,
      roundHalfEven (10 * n) (1024 ^ fbIdx n) % 10, Nat.mod_lt _ (by omega), ?_⟩
    have hne : n ≠ 0 := Nat.pos_iff_ne_zero.mp hn
    have hkne : fbIdx n ≠ 0 := Nat.pos_iff_ne_zero.mp hpos
    simp only [format_bytes, hne, if_false, hkne, ite_false]
    rw [natToStr_single_digit (roundHalfEven (10 * n) (1024 ^ fbIdx n) % 10)
      (Nat.mod_lt _ (by omega))]
    simp [List.append_assoc]

/-- Witness for C8: at `n = 1536` the loop picks unit index 1 (`KB`), the
largest with `1024 ^ k ≤ 1536`. -/
theorem format_bytes_spec_witness :
    fbIdx 1536 ≤ 4 ∧ 1024 ^ fbIdx 1536 ≤ 1536 ∧
    (fbIdx 1536 < 4 → 1536 < 1024 ^ (fbIdx 1536 + 1)) := by
  obtain ⟨h1, h2, h3, _⟩ := format_bytes_spec.1 1536 (by decide)
  exact ⟨h1, h2, h3⟩

/-! ## Claim C9: label resolution -/

lemma splitOnChar_ne_nil (c : Char) (s : List Char) : splitOnChar c s ≠ [] := by
  cases s with
  | nil => simp [splitOnChar]
  | cons ch rest =>
    simp only [splitOnChar]
    rcases h : splitOnChar c rest with _ | ⟨a, as⟩
    · simp
    · by_cases hc : ch = c <;> simp [hc]

lemma rsplitLast_eq_none_iff (c : Char) : ∀ s : List Char, rsplitLast c s = none ↔ c ∉ s := by
  intro s
  induction s with
  | nil => simp [rsplitLast]
  | cons ch rest ih =>
    rcases h : rsplitLast c rest with _ | ⟨p, l⟩
    · have hr : c ∉ rest := ih.mp h
      by_cases hc : ch = c
      · subst hc
        simp [rsplitLast, h]
      · simp [rsplitLast, h, hc, hr, List.mem_cons]
        exact fun hx => hc hx.symm
    · have hr : c ∈ rest := by
        by_contra hn
        simp [ih.mpr hn] at h
      simp [rsplitLast, h, List.mem_cons, hr]

lemma rsplitLast_not_mem (c : Char) :
    ∀ s p l : List Char, rsplitLast c s = some (p, l) → c ∉ l := by
  intro s
  induction s with
  | nil => intro p l h; simp [rsplitLast] at h
  | cons ch rest ih =>
    intro p l h
    simp only [rsplitLast] at h
    rcases hr : rsplitLast c rest with _ | ⟨p', l'⟩
    · rw [hr] at h
      by_cases hc : ch = c
      · simp [hc] at h
        rw [← h.2]
        exact (rsplitLast_eq_none_iff c rest).mp hr
      · simp [hc] at h
    · rw [hr] at h
      simp at h
      rw [← h.2]
      exact ih p' l' hr

lemma rsplitLast_append (c : Char) (l : List Char) (hl : c ∉ l) :
    ∀ p : List Char, rsplitLast c (p ++ c :: l) = some (p, l) := by
  intro p
  induction p with
  | nil =>
    simp only [List.nil_append, rsplitLast]
    rw [(rsplitLast_eq_none_iff c l).mpr hl]
    simp
  | cons x p ih =>
    have hdef : rsplitLast c ((x :: p) ++ c :: l) =
        match rsplitLast c (p ++ c :: l) with
        | some (q, t) => some (x :: q, t)
        | none => if x = c then some ([], p ++ c :: l) else none := rfl
    rw [hdef, ih]

lemma splitOnChar_no_sep (c : Char) : ∀ b : List Char, c ∉ b → splitOnChar c b = [b] := by
  intro b
  induction b with
  | nil => intro _; rfl
  | cons x bs ih =>
    intro h
    have hx : x ≠ c := fun hc => h (by simp [hc])
    have hbs : c ∉ bs := fun hc => h (List.mem_cons_of_mem _ hc)
    simp only [splitOnChar, ih hbs]
    simp [hx]

lemma splitOnChar_append (c : Char) (t : List Char) :
    ∀ a : List Char, c ∉ a → splitOnChar c (a ++ c :: t) = a :: splitOnChar c t := by
  intro a
  induction a with
  | nil =>
    intro _
    simp only [List.nil_append, splitOnChar]
    rcases h : splitOnChar c t with _ | ⟨x, xs⟩
    · exact absurd h (splitOnChar_ne_nil c t)
    · simp
  | cons y a ih =>
    intro h
    have hy : y ≠ c := fun hc => h (by simp [hc])
    have ha : c ∉ a := fun hc => h (List.mem_cons_of_mem _ hc)
    have hdef : splitOnChar c ((y :: a) ++ c :: t) =
        match splitOnChar c (a ++ c :: t) with
        | [] => [[]]
        | x :: xs => if y = c then [] :: x :: xs else (y :: x) :: xs := rfl
    rw [hdef, ih ha]
    simp [hy]

lemma splitOnChar_seg_not_mem (c : Char) :
    ∀ s seg : List Char, seg ∈ splitOnChar c s → c ∉ seg := by
  intro s
  induction s with
  | nil =>
    intro seg h
    simp [splitOnChar] at h
    subst h
    simp
  | cons ch rest ih =>
    intro seg h
    simp only [splitOnChar] at h
    rcases hr : splitOnChar c rest with _ | ⟨a, as⟩
    · exact absurd hr (splitOnChar_ne_nil c rest)
    · rw [hr] at h
      by_cases hc : ch = c
      · simp [hc] at h
        rcases h with h | h | h
        · subst h; simp
        · exact ih seg (by rw [hr, h]; simp)
        · exact ih seg (by rw [hr]; exact List.mem_cons_of_mem _ h)
      · simp [hc] at h
        rcases h with h | h
        · subst h
          intro hmem
          rcases List.mem_cons.mp hmem with h1 | h1
          · exact hc h1.symm
          · exact ih a (by rw [hr]; simp) h1
        · exact ih seg (by rw [hr]; exact List.mem_cons_of_mem _ h)

lemma splitOnChar_seg_subset (c : Char) :
    ∀ s seg : List Char, seg ∈ splitOnChar c s → ∀ x, x ∈ seg → x ∈ s := by
  intro s
  induction s with
  | nil =>
    intro seg h x hx
    simp [splitOnChar] at h
    subst h
    simp at hx
  | cons ch rest ih =>
    intro seg h x hx
    simp only [splitOnChar] at h
    rcases hr : splitOnChar c rest with _ | ⟨a, as⟩
    · exact absurd hr (splitOnChar_ne_nil c rest)
    · rw [hr] at h
      by_cases hc : ch = c
      · simp [hc] at h
        rcases h with h | h | h
        · subst h; simp at hx
        · exact List.mem_cons_of_mem _ (ih seg (by rw [hr, h]; simp) x hx)
        · exact List.mem_cons_of_mem _ (ih seg (by rw [hr]; exact List.mem_cons_of_mem _ h) x hx)
      · simp [hc] at h
        rcases h with h | h
        · subst h
          rcases List.mem_cons.mp hx with h1 | h1
          · simp [h1]
          · exact List.mem_cons_of_mem _ (ih a (by rw [hr]; simp) x h1)
        · exact List.mem_cons_of_mem _ (ih seg (by rw [hr]; exact List.mem_cons_of_mem _ h) x hx)

lemma extract_filename_idem :
    ∀ p : List Char, extract_filename (extract_filename p) = extract_filename p := by
  intro p
  rcases h : (splitOnChar '/' p).reverse with _ | ⟨b, bs⟩
  · rw [List.reverse_eq_nil_iff] at h
    exact absurd h (splitOnChar_ne_nil '/' p)
  rcases bs with _ | ⟨a, rest⟩
  · have hp : extract_filename p = p := by
      unfold extract_filename
      rw [h]
    rw [hp, hp]
  · have hmb : b ∈ splitOnChar '/' p := by
      have : b ∈ (splitOnChar '/' p).reverse := by rw [h]; simp
      exact List.mem_reverse.mp this
    have hma : a ∈ splitOnChar '/' p := by
      have : a ∈ (splitOnChar '/' p).reverse := by rw [h]; simp
      exact List.mem_reverse.mp this
    have hnb : '/' ∉ b := splitOnChar_seg_not_mem '/' p b hmb
    have hna : '/' ∉ a := splitOnChar_seg_not_mem '/' p a hma
    have hp : extract_filename p = a ++ '/' :: b := by
      unfold extract_filename
      rw [h]
    rw [hp]
    unfold extract_filename
    rw [splitOnChar_append '/' b a hna, splitOnChar_no_sep '/' b hnb]
    rfl

lemma not_mem_extract_filename (p : List Char) (x : Char) (hx : x ∉ p)
    (hslash : x ≠ '/') : x ∉ extract_filename p := by
  rcases h : (splitOnChar '/' p).reverse with _ | ⟨b, bs⟩
  · rw [List.reverse_eq_nil_iff] at h
    exact absurd h (splitOnChar_ne_nil '/' p)
  rcases bs with _ | ⟨a, rest⟩
  · have hp : extract_filename p = p := by
      unfold extract_filename
      rw [h]
    rw [hp]
    exact hx
  · have hmb : b ∈ splitOnChar '/' p := by
      have : b ∈ (splitOnChar '/' p).reverse := by rw [h]; simp
      exact List.mem_reverse.mp this
    have hma : a ∈ splitOnChar '/' p := by
      have : a ∈ (splitOnChar '/' p).reverse := by rw [h]; simp
      exact List.mem_reverse.mp this
    have hp : extract_filename p = a ++ '/' :: b := by
      unfold extract_filename
      rw [h]
    rw [hp]
    intro hmem
    rcases List.mem_append.mp hmem with h1 | h1
    · exact hx (splitOnChar_seg_subset '/' p a hma x h1)
    · rcases List.mem_cons.mp h1 with h2 | h2
      · exact hslash h2
      · exact hx (splitOnChar_seg_subset '/' p b hmb x h2)

/-- C9.  `resolve_label` returns a provided label verbatim; with no label it
splits the id at the last `':'` and keeps the final two `'/'`-separated path
segments, as the concrete derivation shows; and re-resolving an
already-resolved default label yields the same string (idempotence). -/
theorem resolve_label_spec :
    (∀ id l : List Char, resolve_label id (some l) = l) ∧
    (∀ id : List Char, resolve_label (resolve_label id none) none = resolve_label id none) ∧
    resolve_label (("examples/some/deep/basic.rs:42").toList) none =
      ("deep/basic.rs:42").toList := by
  refine ⟨fun id l => rfl, ?_, by decide⟩
  intro id
  rcases h : rsplitLast ':' id with _ | ⟨p, l⟩
  · have hid : ':' ∉ id := (rsplitLast_eq_none_iff ':' id).mp h
    have h1 : resolve_label id none = extract_filename id := by
      simp [resolve_label, h]
    rw [h1]
    have h2 : ':' ∉ extract_filename id :=
      not_mem_extract_filename id ':' hid (by decide)
    have h3 : rsplitLast ':' (extract_filename id) = none :=
      (rsplitLast_eq_none_iff ':' (extract_filename id)).mpr h2
    simp [resolve_label, h3, extract_filename_idem]
  · have hl : ':' ∉ l := rsplitLast_not_mem ':' id p l h
    have h1 : resolve_label id none = extract_filename p ++ ':' :: l := by
      simp [resolve_label, h]
    rw [h1]
    have h2 : rsplitLast ':' (extract_filename p ++ ':' :: l) =
        some (extract_filename p, l) := rsplitLast_append ':' l hl (extract_filename p)
    simp [resolve_label, h2, extract_filename_idem]

/-! ## Order lemmas for the snapshot sort -/

lemma strLtb_asymm : ∀ a b : List Char, strLtb a b = true → strLtb b a = true → False := by
  intro a
  induction a with
  | nil =>
    intro b h1 h2
    cases b with
    | nil => simp [strLtb] at h1
    | cons y ys => simp [strLtb] at h2
  | cons x xs ih =>
    intro b h1 h2
    cases b with
    | nil => simp [strLtb] at h1
    | cons y ys =>
      simp only [strLtb] at h1 h2
      by_cases hxy : x < y
      · by_cases hyx : y < x
        · exact absurd hyx (lt_asymm hxy)
        · simp [hxy, hyx] at h2
      · by_cases hyx : y < x
        · simp [hxy, hyx] at h1
        · simp [hxy, hyx] at h1 h2
          exact ih ys h1 h2

lemma strLtb_connex : ∀ a b : List Char, strLtb a b = true ∨ a = b ∨ strLtb b a = true := by
  intro a
  induction a with
  | nil =>
    intro b
    cases b with
    | nil => exact Or.inr (Or.inl rfl)
    | cons y ys => exact Or.inl (by simp [strLtb])
  | cons x xs ih =>
    intro b
    cases b with
    | nil => exact Or.inr (Or.inr (by simp [strLtb]))
    | cons y ys =>
      rcases lt_trichotomy x y with h | h | h
      · exact Or.inl (by simp [strLtb, h])
      · subst h
        rcases ih ys with h1 | h1 | h1
        · exact Or.inl (by simp [strLtb, lt_irrefl, h1])
        · exact Or.inr (Or.inl (by rw [h1]))
        · exact Or.inr (Or.inr (by simp [strLtb, lt_irrefl, h1]))
      · exact Or.inr (Or.inr (by simp [strLtb, h]))

lemma strLtb_trans :
    ∀ a b c : List Char, strLtb a b = true → strLtb b c = true → strLtb a c = true := by
  intro a
  induction a with
  | nil =>
    intro b c h1 h2
    cases b with
    | nil => simp [strLtb] at h1
    | cons y ys =>
      cases c with
      | nil => simp [strLtb] at h2
      | cons z zs => simp [strLtb]
  | cons x xs ih =>
    intro b c h1 h2
    cases b with
    | nil => simp [strLtb] at h1
    | cons y ys =>
      cases c with
      | nil => simp [strLtb] at h2
      | cons z zs =>
        simp only [strLtb] at h1 h2 ⊢
        by_cases hxy : x < y
        · by_cases hyz : y < z
          · simp [lt_trans hxy hyz]
          · by_cases hzy : z < y
            · simp [hyz, hzy] at h2
            · have heq : y = z := le_antisymm (not_lt.mp hzy) (not_lt.mp hyz)
              subst heq
              simp [hxy]
        · by_cases hyx : y < x
          · simp [hxy, hyx] at h1
          · have heq : x = y := le_antisymm (not_lt.mp hyx) (not_lt.mp hxy)
            subst heq
            simp [lt_irrefl] at h1
            by_cases hxz : x < z
            · simp [hxz]
            · by_cases hzx : z < x
              · simp [hxz, hzx] at h2
              · have heq2 : x = z := le_antisymm (not_lt.mp hzx) (not_lt.mp hxz)
                subst heq2
                simp [lt_irrefl] at h2
                simp [lt_irrefl]
                exact ih ys zs h1 h2

lemma strLeb_total (a b : List Char) : strLeb a b = true ∨ strLeb b a = true := by
  by_cases h : strLtb b a = true
  · right
    have hf : strLtb a b = false := by
      cases hab : strLtb a b
      · rfl
      · exact absurd (strLtb_asymm a b hab h) (fun hc => hc)
    simp [strLeb, hf]
  · left
    have hf : strLtb b a = false := Bool.eq_false_iff.mpr h
    simp [strLeb, hf]

lemma strLeb_trans (a b c : List Char) (h1 : strLeb a b = true)
    (h2 : strLeb b c = true) : strLeb a c = true := by
  rw [strLeb, Bool.not_eq_true'] at h1 h2 ⊢
  by_contra hn
  have hca : strLtb c a = true := by
    cases hh : strLtb c a
    · exact absurd hh hn
    · rfl
  rcases strLtb_connex a b with hab | hab | hab
  · exact absurd (strLtb_trans c a b hca hab) (by simp [h2])
  · subst hab
    exact absurd hca (by simp [h2])
  · exact absurd hab (by simp [h1])

lemma strLeb_antisymm (a b : List Char) (h1 : strLeb a b = true)
    (h2 : strLeb b a = true) : a = b := by
  rw [strLeb, Bool.not_eq_true'] at h1 h2
  rcases strLtb_connex a b with h | h | h
  · exact absurd h (by simp [h2])
  · exact h
  · exact absurd h (by simp [h1])

instance : IsTotal SerializableChannelStats serIdLe where
  total := fun a b => strLeb_total a.id b.id

instance : IsTrans SerializableChannelStats serIdLe where
  trans := fun a b c h1 h2 => strLeb_trans a.id b.id c.id h1 h2

instance : IsAntisymm SerializableChannelStats serIdLtStrict where
  antisymm := fun a b h1 h2 =>
    absurd (strLeb_antisymm a.id b.id h1.1 h2.1) h1.2

/-! ## Claim C3: `/metrics` order -/

/-- Counterexample to C3 as stated: `get_serializable_stats` sorts by `id`
(src/lib.rs:492), not by display label.  With one record labelled `"AAA"`
under the larger id, the served array's labels are strictly descending. -/
theorem metrics_not_label_ordered_counterexample :
    ((get_serializable_stats
        [(("a/b.rs:2").toList,
          { id := ("a/b.rs:2").toList, label := some (("AAA").toList),
            channel_type := ChannelType.unbounded, state := ChannelState.active,
            sent_count := 0, received_count := 0,
            type_name := ("u8").toList, type_size := 1 }),
         (("a/b.rs:1").toList,
          { id := ("a/b.rs:1").toList, label := none,
            channel_type := ChannelType.unbounded, state := ChannelState.active,
            sent_count := 0, received_count := 0,
            type_name := ("u8").toList, type_size := 1 })]).map
        (fun s => s.label)) =
      [("a/b.rs:1").toList, ("AAA").toList] ∧
    strLtb (("AAA").toList) (("a/b.rs:1").toList) = true := by
  exact ⟨by decide, by decide⟩

/-- C3 (amended).  The snapshot `get_serializable_stats` serves the records
of the registry ordered ascending lexicographically by `id` — not by display
label. -/
theorem metrics_array_ordered_by_id :
    ∀ m : Registry,
      List.Chain' (fun a b : List Char => strLeb a b = true)
        ((get_serializable_stats m).map (fun s => s.id)) := by
  intro m
  apply List.Pairwise.chain'
  rw [List.pairwise_map]
  exact List.sorted_insertionSort serIdLe _

/-! ## Claim C4: id order and determinism -/

/-- C4.  The `/metrics` array is ordered ascending by the `id` field, and
serializing the same registry contents twice yields the same output: for two
snapshots holding the same records — in any `HashMap` iteration order — with
pairwise-distinct ids, `get_serializable_stats` produces the identical
list. -/
theorem metrics_id_order_deterministic :
    ∀ m m₁ m₂ : Registry,
      List.Pairwise serIdLe (get_serializable_stats m) ∧
      (List.Perm m₁ m₂ → (m₁.map (fun p => p.2.id)).Nodup →
        get_serializable_stats m₁ = get_serializable_stats m₂) := by
  intro m m₁ m₂
  refine ⟨List.sorted_insertionSort serIdLe _, ?_⟩
  intro hperm hnodup
  have hmap : List.Perm (m₁.map (fun p => toSerializable p.2))
      (m₂.map (fun p => toSerializable p.2)) := hperm.map _
  have hids₁ : ((m₁.map (fun p => toSerializable p.2)).map (fun s => s.id)) =
      m₁.map (fun p => p.2.id) := by
    rw [List.map_map]
    rfl
  have hids₂ : ((m₂.map (fun p => toSerializable p.2)).map (fun s => s.id)) =
      m₂.map (fun p => p.2.id) := by
    rw [List.map_map]
    rfl
  have hnodup₂ : (m₂.map (fun p => p.2.id)).Nodup :=
    (hperm.map (fun p => p.2.id)).nodup hnodup
  have hperm₁ : List.Perm (get_serializable_stats m₁)
      (m₁.map (fun p => toSerializable p.2)) := List.perm_insertionSort serIdLe _
  have hperm₂ : List.Perm (get_serializable_stats m₂)
      (m₂.map (fun p => toSerializable p.2)) := List.perm_insertionSort serIdLe _
  have hn₁ : ((get_serializable_stats m₁).map (fun s => s.id)).Nodup := by
    have hp : List.Perm ((m₁.map (fun p => toSerializable p.2)).map (fun s => s.id))
        ((get_serializable_stats m₁).map (fun s => s.id)) := (hperm₁.map _).symm
    exact hp.nodup (by rw [hids₁]; exact hnodup)
  have hn₂ : ((get_serializable_stats m₂).map (fun s => s.id)).Nodup := by
    have hp : List.Perm ((m₂.map (fun p => toSerializable p.2)).map (fun s => s.id))
        ((get_serializable_stats m₂).map (fun s => s.id)) := (hperm₂.map _).symm
    exact hp.nodup (by rw [hids₂]; exact hnodup₂)
  have hs₁ : List.Pairwise serIdLtStrict (get_serializable_stats m₁) :=
    (List.sorted_insertionSort serIdLe _).and (List.pairwise_map.mp hn₁)
  have hs₂ : List.Pairwise serIdLtStrict (get_serializable_stats m₂) :=
    (List.sorted_insertionSort serIdLe _).and (List.pairwise_map.mp hn₂)
  have hp : List.Perm (get_serializable_stats m₁) (get_serializable_stats m₂) :=
    hperm₁.trans (hmap.trans hperm₂.symm)
  exact List.eq_of_perm_of_sorted hp hs₁ hs₂

/-- Witness for C4: swapping the iteration order of a two-record registry
with distinct ids leaves the serialized array identical. -/
theorem metrics_id_order_deterministic_witness :
    get_serializable_stats
        [(("a").toList, ChannelStats.new (("a").toList) none ChannelType.unbounded (("u8").toList) 1),
         (("b").toList, ChannelStats.new (("b").toList) none ChannelType.oneshot (("u8").toList) 1)] =
      get_serializable_stats
        [(("b").toList, ChannelStats.new (("b").toList) none ChannelType.oneshot (("u8").toList) 1),
         (("a").toList, ChannelStats.new (("a").toList) none ChannelType.unbounded (("u8").toList) 1)] :=
  (metrics_id_order_deterministic [] _ _).2 (by decide) (by decide)

/-! ## Claim C5: HTTP request handling -/

/-- Counterexample to C5 as stated: the server matches only
`request.url() == "/metrics"` (src/lib.rs:507) and never inspects the
method, so a `POST` to `/metrics` is answered `200` with the JSON body, not
`404`. -/
theorem handle_request_ignores_method_counterexample :
    (handle_request { method := ("POST").toList, url := ("/metrics").toList }
        (Except.ok (("[]").toList))).status = 200 ∧
    (handle_request { method := ("POST").toList, url := ("/metrics").toList }
        (Except.ok (("[]").toList))).status ≠ 404 := by
  exact ⟨by decide, by decide⟩

/-- C5 (amended).  A request is answered `200` with the JSON body exactly
when its path is `/metrics` and serialization succeeds — the method is never
inspected; any other path receives `404 Not found` with a plain-text body;
a serialization failure on `/metrics` is answered `500` with the error text;
and the request loop answers every request, before and after any failure,
without terminating. -/
theorem handle_request_spec :
    ∀ (req : HttpRequest) (ser : Except (List Char) (List Char)),
      (req.url = ("/metrics").toList →
        (∀ j, ser = Except.ok j →
          handle_request req ser = { status := 200, contentTypeJson := true, body := j }) ∧
        (∀ e, ser = Except.error e →
          handle_request req ser =
            HttpResponse.mk 500 false (("Internal server error: ").toList ++ e))) ∧
      (req.url ≠ ("/metrics").toList →
        handle_request req ser =
          { status := 404, contentTypeJson := false, body := ("Not found").toList }) ∧
      ((handle_request req ser).status = 200 ↔
        req.url = ("/metrics").toList ∧ ∃ j, ser = Except.ok j) ∧
      (∀ pre post, serve_requests (pre ++ (req, ser) :: post) =
        serve_requests pre ++ handle_request req ser :: serve_requests post) := by
  intro req ser
  refine ⟨?_, ?_, ?_, ?_⟩
  · intro hurl
    constructor
    · intro j hj
      subst hj
      simp [handle_request, hurl]
    · intro e he
      subst he
      simp [handle_request, hurl]
  · intro hurl
    unfold handle_request
    rw [if_neg hurl]
  · constructor
    · intro h
      by_cases hurl : req.url = ("/metrics").toList
      · cases ser with
        | ok j => exact ⟨hurl, j, rfl⟩
        | error e =>
          unfold handle_request at h
          rw [if_pos hurl] at h
          simp at h
      · unfold handle_request at h
        rw [if_neg hurl] at h
        simp at h
    · rintro ⟨hurl, j, hj⟩
      subst hj
      simp [handle_request, hurl]
  · intro pre post
    simp [serve_requests]

/-- Witness for C5 (amended): a request for another path is answered
`404 Not found`. -/
theorem handle_request_spec_witness :
    handle_request { method := ("GET").toList, url := ("/other").toList }
        (Except.ok []) =
      { status := 404, contentTypeJson := false, body := ("Not found").toList } :=
  (handle_request_spec { method := ("GET").toList, url := ("/other").toList }
    (Except.ok [])).2.1 (by decide)
